import Mathlib

/-!
Verification of the AutoMeta document-metadata pipeline.

This file gives a shallow embedding of the two Python sources
`auto_meta_metadata_generation.py` and `streamlit_app.py` and proves the
behavioural properties stated about them.  Text is modelled as `List Char`
(Python strings are character sequences), and the external capabilities
(PyMuPDF page extraction, python-docx paragraph extraction, pdf2image plus
pytesseract OCR, the BART summarizer and the KeyBERT keyword model) are opaque
function parameters, since the repository only invokes them.
-/

/-- A Python string, modelled as its sequence of characters. -/
abbrev Str := List Char

/-- ASCII whitespace, as recognised by CPython's `str.strip()` / `str.split()`
for ASCII text: space, tab, newline, carriage return, vertical tab, form feed. -/
def pyIsSpace (c : Char) : Bool :=
  c == ' ' || c == '\t' || c == '\n' || c == '\r' || c == '\x0b' || c == '\x0c'

/-- Python `str.strip()`: remove leading and trailing whitespace. -/
def pyStrip (s : Str) : Str :=
  ((s.dropWhile pyIsSpace).reverse.dropWhile pyIsSpace).reverse

/-- Worker for Python `str.split()` with no argument: split on runs of
whitespace and discard empty tokens.  The first argument accumulates the
current token in reverse. -/
def pySplitWsAux : Str → Str → List Str
  | cur, [] => if cur = [] then [] else [cur.reverse]
  | cur, c :: s =>
    if pyIsSpace c then
      if cur = [] then pySplitWsAux [] s else cur.reverse :: pySplitWsAux [] s
    else
      pySplitWsAux (c :: cur) s

/-- Python `text.split()` (no separator argument): whitespace-run tokenisation. -/
def pySplitWs (s : Str) : List Str := pySplitWsAux [] s

/-- Python `s.split(sep)` for a one-character separator.  The result is always
a non-empty list; splitting the empty string gives `[""]`. -/
def pySplitChar (sep : Char) : Str → List Str
  | [] => [[]]
  | c :: s =>
    if c = sep then [] :: pySplitChar sep s
    else
      match pySplitChar sep s with
      | [] => [[c]]
      | t :: ts => (c :: t) :: ts

/-- The metadata dictionary built by both `generate_metadata` variants, with
the five keys it always carries. -/
structure Metadata where
  title : Str
  summary : Str
  keywords : List Str
  document_type : Str
  word_count : Nat
deriving DecidableEq

/-- Embedding of `generate_metadata(text, doc_type)` from
`auto_meta_metadata_generation.py` (lines 39-52); `streamlit_app.py`
(lines 36-46) contains the identical function.  The summarization pipeline
call is the opaque `summarizer`; the KeyBERT call is the opaque `kw_model`,
returning scored phrases whose score type `σ` is never inspected.  In the
source `doc_type` defaults to `"PDF"`; callers here always pass it. -/
def generate_metadata {σ : Type} (summarizer : Str → Str)
    (kw_model : Str → List (Str × σ)) (text doc_type : Str) : Metadata :=
  let short_text := if text.length > 1024 then text.take 1024 else text
  let summary := summarizer short_text
  let keywords := kw_model text
  { title := (pySplitChar '.' summary).headI
  , summary := summary
  , keywords := keywords.map Prod.fst
  , document_type := doc_type
  , word_count := (pySplitWs text).length }

/-- The chunk list built inside `summarize_long_text`:
`[text[i:i+chunk_size] for i in range(0, len(text), chunk_size)]`.
For a positive step, Python's `range(0, n, step)` has `(n + step - 1) / step`
elements `0, step, 2*step, ...`, and `text[i:i+chunk_size]` is
`(text.drop i).take chunk_size`. -/
def pyChunks (chunk_size : Nat) (text : Str) : List Str :=
  (List.range' 0 ((text.length + chunk_size - 1) / chunk_size) chunk_size).map
    (fun i => (text.drop i).take chunk_size)

/-- Embedding of `summarize_long_text(text, chunk_size=1000, max_chunks=5)`
from the UI section of `auto_meta_metadata_generation.py` (lines 138-144):
chunk the text, summarize at most the first `max_chunks` chunks, and join the
per-chunk summaries with `" ".join(summaries)`. -/
def summarize_long_text (summarizer : Str → Str) (text : Str)
    (chunk_size max_chunks : Nat) : Str :=
  let chunks := pyChunks chunk_size text
  let summaries := (chunks.take max_chunks).map summarizer
  List.intercalate [' '] summaries

/-- Embedding of the chunking `generate_metadata(text, doc_type="Unknown")`
variant from the UI section of `auto_meta_metadata_generation.py`
(lines 147-161), which summarizes via `summarize_long_text` with its default
`chunk_size=1000, max_chunks=5`. -/
def ui_generate_metadata {σ : Type} (summarizer : Str → Str)
    (kw_model : Str → List (Str × σ)) (text doc_type : Str) : Metadata :=
  let summary := summarize_long_text summarizer text 1000 5
  let keywords := kw_model text
  { title := (pySplitChar '.' summary).headI
  , summary := summary
  , keywords := keywords.map Prod.fst
  , document_type := doc_type
  , word_count := (pySplitWs text).length }

/-- The external document-reading services, keyed by file path: the per-page
text of `fitz.open(path)`, the per-page OCR output of
`pytesseract.image_to_string` over `convert_from_path(path)`, the paragraph
texts of `docx.Document(path)`, and `Path(path).read_text(encoding="utf-8")`. -/
structure Services where
  pdfPages : Str → List Str
  ocrPages : Str → List Str
  docxParas : Str → List Str
  txtContent : Str → Str

/-- Embedding of `extract_text_from_pdf(path)`:
`"\n".join(page.get_text() for page in doc).strip()`. -/
def extract_text_from_pdf (srv : Services) (path : Str) : Str :=
  pyStrip (List.intercalate ['\n'] (srv.pdfPages path))

/-- Embedding of `extract_text_from_docx(path)`:
`"\n".join(para.text for para in doc.paragraphs).strip()`. -/
def extract_text_from_docx (srv : Services) (path : Str) : Str :=
  pyStrip (List.intercalate ['\n'] (srv.docxParas path))

/-- Embedding of `extract_text_via_ocr(path)`:
`"\n".join(pytesseract.image_to_string(img) for img in images).strip()`. -/
def extract_text_via_ocr (srv : Services) (path : Str) : Str :=
  pyStrip (List.intercalate ['\n'] (srv.ocrPages path))

/-- The final path component (after the last `/`), as `pathlib` computes the
name of a plain file path. -/
def lastComponent (p : Str) : Str :=
  (p.reverse.takeWhile (fun c => c != '/')).reverse

/-- Python `PurePath.suffix` of a file name: the part from the last dot on,
provided that dot is neither the first nor the last character of the name
(CPython: `i = name.rfind('.'); name[i:] if 0 < i < len(name) - 1 else ''`). -/
def pySuffix (name : Str) : Str :=
  let tail := (name.reverse.takeWhile (fun c => c != '.')).reverse
  if 0 < tail.length ∧ tail.length + 1 < name.length then '.' :: tail else []

/-- Embedding of `Path(file_path).suffix.lower()` as computed at the top of
`process_file` and of the UI dispatch blocks. -/
def pathExtLower (p : Str) : Str :=
  (pySuffix (lastComponent p)).map Char.toLower

/-- Embedding of `process_file(file_path)` from
`auto_meta_metadata_generation.py` (lines 56-76); the dispatch blocks in both
Streamlit variants (on the uploaded file's name) are line-for-line the same. -/
def process_file (srv : Services) (file_path : Str) : Str × Str :=
  let ext := pathExtLower file_path
  if ext = ".pdf".toList then
    let text := extract_text_from_pdf srv file_path
    if text = [] then
      (extract_text_via_ocr srv file_path, "Scanned PDF".toList)
    else
      (text, "PDF".toList)
  else if ext = ".docx".toList then
    (extract_text_from_docx srv file_path, "DOCX".toList)
  else if ext = ".txt".toList then
    (srv.txtContent file_path, "TXT".toList)
  else
    ([], "Unknown".toList)

/-- Specification-side word count: the number of whitespace-delimited tokens,
counted by a single scan that increments once at each entry into a maximal
run of non-whitespace characters.  Stated independently of `pySplitWs` so the
`word_count` invariant is compared against a second formulation. -/
def countTokensAux : Bool → Str → Nat
  | _, [] => 0
  | inWord, c :: s =>
    if pyIsSpace c then countTokensAux false s
    else (if inWord then 0 else 1) + countTokensAux true s

/-- Number of whitespace-delimited tokens of a string. -/
def countTokens (s : Str) : Nat := countTokensAux false s

/-- Boolean check that a string carries no leading and no trailing
whitespace character. -/
def strippedAtEnds (s : Str) : Bool :=
  (match s.head? with
   | none => true
   | some c => !pyIsSpace c)
  && (match s.getLast? with
      | none => true
      | some c => !pyIsSpace c)

/-- An exception raised by one of the external libraries (a corrupt file in
`fitz.open`, an OCR engine failure, a model invocation failure, ...),
identified by its message.  The repository contains no `try`/`except`, so
such exceptions propagate unchanged. -/
inductive PyExn where
  | mk (message : Str)
deriving DecidableEq

/-- The external services with their failure behaviour made explicit: each
call either returns a value or raises an exception.  `summarize` is the
summarizer pipeline call and `extract_keywords` the KeyBERT call of the
notebook's `generate_metadata`. -/
structure ServicesE (σ : Type) where
  pdfPages : Str → Except PyExn (List Str)
  ocrPages : Str → Except PyExn (List Str)
  docxParas : Str → Except PyExn (List Str)
  txtContent : Str → Except PyExn Str
  summarize : Str → Except PyExn Str
  extract_keywords : Str → Except PyExn (List (Str × σ))

/-- Fallible embedding of `extract_text_from_pdf`: the `fitz` calls may raise,
and the function body installs no handler, so the exception propagates. -/
def extract_text_from_pdfE {σ : Type} (srv : ServicesE σ) (path : Str) :
    Except PyExn Str := do
  let pages ← srv.pdfPages path
  pure (pyStrip (List.intercalate ['\n'] pages))

/-- Fallible embedding of `extract_text_from_docx`. -/
def extract_text_from_docxE {σ : Type} (srv : ServicesE σ) (path : Str) :
    Except PyExn Str := do
  let paras ← srv.docxParas path
  pure (pyStrip (List.intercalate ['\n'] paras))

/-- Fallible embedding of `extract_text_via_ocr`. -/
def extract_text_via_ocrE {σ : Type} (srv : ServicesE σ) (path : Str) :
    Except PyExn Str := do
  let pages ← srv.ocrPages path
  pure (pyStrip (List.intercalate ['\n'] pages))

/-- Fallible embedding of `process_file`: no branch catches anything, so any
exception from an extraction call propagates to the caller unchanged. -/
def process_fileE {σ : Type} (srv : ServicesE σ) (file_path : Str) :
    Except PyExn (Str × Str) :=
  let ext := pathExtLower file_path
  if ext = ".pdf".toList then do
    let text ← extract_text_from_pdfE srv file_path
    if text = [] then do
      let t ← extract_text_via_ocrE srv file_path
      pure (t, "Scanned PDF".toList)
    else
      pure (text, "PDF".toList)
  else if ext = ".docx".toList then do
    let t ← extract_text_from_docxE srv file_path
    pure (t, "DOCX".toList)
  else if ext = ".txt".toList then do
    let t ← srv.txtContent file_path
    pure (t, "TXT".toList)
  else
    pure ([], "Unknown".toList)

/-- Fallible embedding of the notebook's `generate_metadata`: the summarizer
and KeyBERT calls may raise, and the function installs no handler. -/
def generate_metadataE {σ : Type} (srv : ServicesE σ) (text doc_type : Str) :
    Except PyExn Metadata := do
  let short_text := if text.length > 1024 then text.take 1024 else text
  let summary ← srv.summarize short_text
  let keywords ← srv.extract_keywords text
  pure { title := (pySplitChar '.' summary).headI
       , summary := summary
       , keywords := keywords.map Prod.fst
       , document_type := doc_type
       , word_count := (pySplitWs text).length }

/-- The observable outputs of the notebook entry point: the two serialized
dumps of the record, or one of its two warning prints. -/
inductive NotebookEvent where
  | jsonOut (record : Metadata)
  | yamlOut (record : Metadata)
  | noTextWarning
  | fileNotFoundWarning
deriving DecidableEq

/-- Embedding of the notebook entry point (`auto_meta_metadata_generation.py`
lines 81-94): check `os.path.exists(file_path)` (the opaque `fsx`), run
`process_file`, and either print the JSON and YAML dumps of the generated
record, or print the no-text warning, or print the file-not-found warning.
The value also returns the record produced, if any.  Nothing in the script
catches exceptions, so a raised `PyExn` escapes as `Except.error`. -/
def run_notebookE {σ : Type} (fsx : Str → Bool) (srv : ServicesE σ)
    (file_path : Str) : Except PyExn (List NotebookEvent × Option Metadata) :=
  if fsx file_path then do
    let pr ← process_fileE srv file_path
    if pr.1 ≠ [] then do
      let metadata ← generate_metadataE srv pr.1 pr.2
      pure ([NotebookEvent.jsonOut metadata, NotebookEvent.yamlOut metadata],
            some metadata)
    else
      pure ([NotebookEvent.noTextWarning], none)
  else
    pure ([NotebookEvent.fileNotFoundWarning], none)

/-- Concrete extraction services for a scanned PDF: the direct text layer of
every page is blank, OCR recovers text. -/
def svcScan : Services :=
  { pdfPages := fun _ => [" ".toList]
  , ocrPages := fun _ => ["scanned page".toList]
  , docxParas := fun _ => []
  , txtContent := fun _ => [] }

/-- Concrete extraction services whose TXT reader returns content with edge
whitespace, to exercise the verbatim TXT branch. -/
def svcTxt : Services :=
  { pdfPages := fun _ => []
  , ocrPages := fun _ => []
  , docxParas := fun _ => []
  , txtContent := fun _ => "  raw content \n".toList }

/-- Fallible services in which opening any PDF raises, as a corrupt file does
in `fitz.open`. -/
def svcCorruptPdf : ServicesE Unit :=
  { pdfPages := fun _ => Except.error (PyExn.mk "corrupt file".toList)
  , ocrPages := fun _ => Except.ok []
  , docxParas := fun _ => Except.ok []
  , txtContent := fun _ => Except.ok []
  , summarize := fun _ => Except.ok []
  , extract_keywords := fun _ => Except.ok [] }

/-- Fallible services in which the summarization model call raises. -/
def svcModelDown : ServicesE Unit :=
  { pdfPages := fun _ => Except.ok []
  , ocrPages := fun _ => Except.ok []
  , docxParas := fun _ => Except.ok []
  , txtContent := fun _ => Except.ok "hello world".toList
  , summarize := fun _ => Except.error (PyExn.mk "model unavailable".toList)
  , extract_keywords := fun _ => Except.ok [] }

/-- Fallible services that always succeed, for the missing-file scenario. -/
def svcIdle : ServicesE Unit :=
  { pdfPages := fun _ => Except.ok []
  , ocrPages := fun _ => Except.ok []
  , docxParas := fun _ => Except.ok []
  , txtContent := fun _ => Except.ok []
  , summarize := fun _ => Except.ok []
  , extract_keywords := fun _ => Except.ok [] }

theorem pySplitChar_ne_nil (sep : Char) (s : Str) : pySplitChar sep s ≠ [] := by
  induction s with
  | nil => simp [pySplitChar]
  | cons c t ih =>
    simp only [pySplitChar]
    by_cases h : c = sep
    · simp [h]
    · simp only [if_neg h]
      cases htl : pySplitChar sep t with
      | nil => simp
      | cons u us => simp

theorem headI_pySplitChar (sep : Char) (s : Str) :
    (pySplitChar sep s).headI = s.takeWhile (fun c => c != sep) := by
  induction s with
  | nil => simp [pySplitChar]
  | cons c t ih =>
    simp only [pySplitChar]
    by_cases h : c = sep
    · simp [h, List.takeWhile]
    · simp only [if_neg h]
      have hbne : (c != sep) = true := by simp [h]
      cases htl : pySplitChar sep t with
      | nil => exact absurd htl (pySplitChar_ne_nil sep t)
      | cons u us =>
        rw [htl] at ih
        simp only [List.headI] at ih
        simp [List.takeWhile, hbne, ← ih]

theorem takeWhile_ne_not_mem (x : Char) (s : Str) :
    x ∉ s.takeWhile (fun c => c != x) := by
  induction s with
  | nil => simp
  | cons c t ih =>
    by_cases h : c = x
    · simp [List.takeWhile, h]
    · have hbne : (c != x) = true := by simp [h]
      simp [List.takeWhile, hbne, ih]
      intro he
      exact absurd he.symm h

theorem takeWhile_ne_split_first (x : Char) (s : Str) (h : x ∈ s) :
    ∃ rest, s = s.takeWhile (fun c => c != x) ++ x :: rest := by
  induction s with
  | nil => cases h
  | cons c t ih =>
    by_cases hc : c = x
    · subst hc
      refine ⟨t, ?_⟩
      simp [List.takeWhile]
    · have hbne : (c != x) = true := by simp [hc]
      have hxt : x ∈ t := by
        cases List.mem_cons.mp h with
        | inl he => exact absurd he.symm hc
        | inr hm => exact hm
      obtain ⟨r, hr⟩ := ih hxt
      refine ⟨r, ?_⟩
      simp only [List.takeWhile, hbne, List.cons_append]
      exact congrArg (c :: ·) hr

theorem takeWhile_ne_all (x : Char) (s : Str) (h : x ∉ s) :
    s.takeWhile (fun c => c != x) = s := by
  induction s with
  | nil => rfl
  | cons c t ih =>
    have hc : c ≠ x := fun he => h (he ▸ List.mem_cons_self c t)
    have hbne : (c != x) = true := by simp [hc]
    have hxt : x ∉ t := fun hm => h (List.mem_cons_of_mem c hm)
    simp [List.takeWhile, hbne, ih hxt]

/-- The title derived by `summary.split('.')[0]` is exactly the part of the
summary before its first period: it contains no period, the summary extends
it with a period when one occurs, and it is the whole summary otherwise. -/
theorem title_of_summary_spec (s : Str) :
    ('.' ∉ (pySplitChar '.' s).headI)
    ∧ ('.' ∈ s → ∃ rest, s = (pySplitChar '.' s).headI ++ '.' :: rest)
    ∧ ('.' ∉ s → (pySplitChar '.' s).headI = s) := by
  rw [headI_pySplitChar]
  exact ⟨takeWhile_ne_not_mem '.' s, takeWhile_ne_split_first '.' s,
    takeWhile_ne_all '.' s⟩

theorem head_dropWhile_false (p : Char → Bool) :
    ∀ (l : Str) (c : Char), (l.dropWhile p).head? = some c → p c = false := by
  intro l
  induction l with
  | nil => intro c h; simp [List.dropWhile] at h
  | cons a t ih =>
    intro c h
    by_cases ha : p a
    · rw [List.dropWhile_cons_of_pos ha] at h
      exact ih c h
    · rw [List.dropWhile_cons_of_neg ha] at h
      simp only [List.head?_cons, Option.some.injEq] at h
      subst h
      exact Bool.eq_false_iff.mpr ha

theorem getLast_dropWhile_eq (p : Char → Bool) :
    ∀ l : Str, l.dropWhile p ≠ [] → (l.dropWhile p).getLast? = l.getLast? := by
  intro l
  induction l with
  | nil => intro h; simp [List.dropWhile] at h
  | cons a t ih =>
    intro h
    by_cases ha : p a
    · rw [List.dropWhile_cons_of_pos ha] at h ⊢
      have htne : t ≠ [] := by
        intro he
        rw [he] at h
        simp [List.dropWhile] at h
      cases t with
      | nil => exact absurd rfl htne
      | cons b u =>
        rw [List.getLast?_cons_cons]
        exact ih h
    · rw [List.dropWhile_cons_of_neg ha]

theorem strippedAtEnds_of (s : Str)
    (h1 : ∀ c, s.head? = some c → pyIsSpace c = false)
    (h2 : ∀ c, s.getLast? = some c → pyIsSpace c = false) :
    strippedAtEnds s = true := by
  unfold strippedAtEnds
  rw [Bool.and_eq_true]
  constructor
  · cases hh : s.head? with
    | none => rfl
    | some c => simp [h1 c hh]
  · cases hl : s.getLast? with
    | none => rfl
    | some c => simp [h2 c hl]

theorem pyStrip_stripped (s : Str) : strippedAtEnds (pyStrip s) = true := by
  apply strippedAtEnds_of
  · intro c hc
    unfold pyStrip at hc
    rw [List.head?_reverse] at hc
    have hne : (s.dropWhile pyIsSpace).reverse.dropWhile pyIsSpace ≠ [] := by
      intro he
      rw [he] at hc
      simp at hc
    rw [getLast_dropWhile_eq _ _ hne, List.getLast?_reverse] at hc
    exact head_dropWhile_false pyIsSpace s c hc
  · intro c hc
    unfold pyStrip at hc
    rw [List.getLast?_reverse] at hc
    exact head_dropWhile_false pyIsSpace _ c hc

theorem pySplitWsAux_length :
    ∀ (s cur : Str), (pySplitWsAux cur s).length
      = (if cur = [] then countTokensAux false s else countTokensAux true s + 1) := by
  intro s
  induction s with
  | nil =>
    intro cur
    by_cases hc : cur = []
    · simp [pySplitWsAux, hc, countTokensAux]
    · simp [pySplitWsAux, hc, countTokensAux]
  | cons c t ih =>
    intro cur
    by_cases hsp : pyIsSpace c
    · by_cases hc : cur = []
      · simp [pySplitWsAux, hsp, hc, countTokensAux, ih []]
      · simp [pySplitWsAux, hsp, hc, countTokensAux, ih []]
    · have h1 := ih (c :: cur)
      have hne : (c :: cur : Str) ≠ [] := by simp
      rw [if_neg hne] at h1
      have hstep : pySplitWsAux cur (c :: t) = pySplitWsAux (c :: cur) t := by
        simp [pySplitWsAux, hsp]
      rw [hstep, h1]
      by_cases hc : cur = []
      all_goals simp [hc, countTokensAux, hsp]
      all_goals omega

theorem pySplitWs_length_eq (s : Str) : (pySplitWs s).length = countTokens s := by
  unfold pySplitWs countTokens
  simp [pySplitWsAux_length s []]

theorem range'_add_right (n : Nat) :
    ∀ s t step : Nat,
      List.range' (s + t) n step = (List.range' s n step).map (fun x => x + t) := by
  induction n with
  | zero => intro s t step; rfl
  | succ n ih =>
    intro s t step
    show (s + t) :: List.range' (s + t + step) n step = _
    have he : s + t + step = (s + step) + t := by omega
    rw [he, ih (s + step) t step]
    rfl

theorem pyChunks_nil (cs : Nat) : pyChunks cs [] = [] := by
  have h : (cs - 1) / cs = 0 := by
    cases cs with
    | zero => rfl
    | succ n => exact Nat.div_eq_of_lt (by omega)
  simp [pyChunks, h]

theorem pyChunks_cons (cs : Nat) (hcs : 1 ≤ cs) (l : Str) (hl : l ≠ []) :
    pyChunks cs l = l.take cs :: pyChunks cs (l.drop cs) := by
  have hL : 1 ≤ l.length := List.length_pos.mpr hl
  have key : (l.length + cs - 1) / cs = ((l.length - cs) + cs - 1) / cs + 1 := by
    have h1 : l.length + cs - 1 = (l.length - 1) + cs := by omega
    rw [h1, Nat.add_div_right _ (by omega)]
    have h2 : (l.length - 1) / cs = ((l.length - cs) + cs - 1) / cs := by
      rcases Nat.le_total cs l.length with h | h
      · have : (l.length - cs) + cs - 1 = l.length - 1 := by omega
        rw [this]
      · have e : (l.length - cs) + cs - 1 = cs - 1 := by omega
        rw [e, Nat.div_eq_of_lt (by omega), Nat.div_eq_of_lt (by omega)]
    omega
  unfold pyChunks
  rw [key]
  show ((0 : Nat) :: List.range' (0 + cs) _ cs).map _ = _
  rw [List.map_cons, List.drop_zero, range'_add_right _ 0 cs cs, List.map_map]
  rw [List.length_drop]
  congr 1
  apply List.map_congr_left
  intro i _
  simp only [Function.comp_apply]
  rw [List.drop_drop i cs l, Nat.add_comm i cs]

theorem pyChunks_flatten_fuel (cs : Nat) (hcs : 1 ≤ cs) :
    ∀ (n : Nat) (l : Str), l.length ≤ n → (pyChunks cs l).flatten = l := by
  intro n
  induction n with
  | zero =>
    intro l hl
    have : l = [] := List.eq_nil_of_length_eq_zero (by omega)
    subst this
    simp [pyChunks_nil]
  | succ n ih =>
    intro l hl
    rcases eq_or_ne l [] with rfl | hne
    · simp [pyChunks_nil]
    · rw [pyChunks_cons cs hcs l hne, List.flatten_cons]
      have hlp : 1 ≤ l.length := List.length_pos.mpr hne
      have hdl : (l.drop cs).length ≤ n := by
        rw [List.length_drop]
        omega
      rw [ih (l.drop cs) hdl]
      exact List.take_append_drop cs l

theorem pyChunks_flatten (cs : Nat) (hcs : 1 ≤ cs) (l : Str) :
    (pyChunks cs l).flatten = l :=
  pyChunks_flatten_fuel cs hcs l.length l (Nat.le_refl _)

theorem pyChunks_mem_fuel (cs : Nat) (hcs : 1 ≤ cs) :
    ∀ (n : Nat) (l : Str), l.length ≤ n →
      ∀ ch ∈ pyChunks cs l, ch ≠ [] ∧ ch.length ≤ cs := by
  intro n
  induction n with
  | zero =>
    intro l hl ch hch
    have : l = [] := List.eq_nil_of_length_eq_zero (by omega)
    subst this
    rw [pyChunks_nil] at hch
    cases hch
  | succ n ih =>
    intro l hl ch hch
    rcases eq_or_ne l [] with rfl | hne
    · rw [pyChunks_nil] at hch
      cases hch
    · rw [pyChunks_cons cs hcs l hne] at hch
      have hlp : 1 ≤ l.length := List.length_pos.mpr hne
      cases List.mem_cons.mp hch with
      | inl he =>
        subst he
        constructor
        · intro hnil
          have hlen := congrArg List.length hnil
          rw [List.length_take] at hlen
          simp only [List.length_nil] at hlen
          omega
        · rw [List.length_take]
          omega
      | inr hm =>
        have hdl : (l.drop cs).length ≤ n := by
          rw [List.length_drop]
          omega
        exact ih (l.drop cs) hdl ch hm

theorem pyChunks_mem (cs : Nat) (hcs : 1 ≤ cs) (l : Str) :
    ∀ ch ∈ pyChunks cs l, ch ≠ [] ∧ ch.length ≤ cs :=
  pyChunks_mem_fuel cs hcs l.length l (Nat.le_refl _)

theorem pyChunks_dropLast_fuel (cs : Nat) (hcs : 1 ≤ cs) :
    ∀ (n : Nat) (l : Str), l.length ≤ n →
      ∀ ch ∈ (pyChunks cs l).dropLast, ch.length = cs := by
  intro n
  induction n with
  | zero =>
    intro l hl ch hch
    have : l = [] := List.eq_nil_of_length_eq_zero (by omega)
    subst this
    rw [pyChunks_nil] at hch
    cases hch
  | succ n ih =>
    intro l hl ch hch
    rcases eq_or_ne l [] with rfl | hne
    · rw [pyChunks_nil] at hch
      cases hch
    · rw [pyChunks_cons cs hcs l hne] at hch
      have hlp : 1 ≤ l.length := List.length_pos.mpr hne
      rcases eq_or_ne (l.drop cs) [] with hdnil | hdne
      · rw [hdnil, pyChunks_nil] at hch
        simp [List.dropLast] at hch
      · rw [pyChunks_cons cs hcs (l.drop cs) hdne] at hch
        simp only [List.dropLast_cons₂, List.mem_cons] at hch
        have hcslt : cs < l.length := by
          by_contra hge
          exact hdne (List.drop_eq_nil_of_le (by omega))
        cases hch with
        | inl he =>
          subst he
          rw [List.length_take]
          omega
        | inr hm =>
          have hdl : (l.drop cs).length ≤ n := by
            rw [List.length_drop]
            omega
          apply ih (l.drop cs) hdl ch
          rw [pyChunks_cons cs hcs (l.drop cs) hdne]
          exact hm

theorem pyChunks_dropLast (cs : Nat) (hcs : 1 ≤ cs) (l : Str) :
    ∀ ch ∈ (pyChunks cs l).dropLast, ch.length = cs :=
  pyChunks_dropLast_fuel cs hcs l.length l (Nat.le_refl _)

theorem pyChunks_take_flatten_fuel (cs : Nat) (hcs : 1 ≤ cs) :
    ∀ (n : Nat) (l : Str) (k : Nat), l.length ≤ n →
      ((pyChunks cs l).take k).flatten = l.take (cs * k) := by
  intro n
  induction n with
  | zero =>
    intro l k hl
    have : l = [] := List.eq_nil_of_length_eq_zero (by omega)
    subst this
    simp [pyChunks_nil]
  | succ n ih =>
    intro l k hl
    rcases eq_or_ne l [] with rfl | hne
    · simp [pyChunks_nil]
    · cases k with
      | zero => simp
      | succ m =>
        rw [pyChunks_cons cs hcs l hne, List.take_succ_cons, List.flatten_cons]
        have hlp : 1 ≤ l.length := List.length_pos.mpr hne
        have hdl : (l.drop cs).length ≤ n := by
          rw [List.length_drop]
          omega
        rw [ih (l.drop cs) m hdl]
        have harith : cs * (m + 1) = cs + cs * m := by ring
        rw [harith, List.take_add]

theorem pyChunks_take_flatten (cs : Nat) (hcs : 1 ≤ cs) (l : Str) (k : Nat) :
    ((pyChunks cs l).take k).flatten = l.take (cs * k) :=
  pyChunks_take_flatten_fuel cs hcs l.length l k (Nat.le_refl _)

/-- C2: in the truncate-then-summarize `generate_metadata`, a text longer
than 1024 characters is summarized from exactly its first 1024 characters (a
length-1024 prefix of the input), a shorter text is summarized whole, and the
keyword extractor always receives the full untruncated text. -/
theorem truncate_then_summarize_spec {σ : Type} (S : Str → Str)
    (K : Str → List (Str × σ)) (text d : Str) :
    (text.length > 1024 →
      (generate_metadata S K text d).summary = S (text.take 1024)
      ∧ (text.take 1024).length = 1024
      ∧ ∃ rest, text = text.take 1024 ++ rest)
    ∧ (¬ text.length > 1024 → (generate_metadata S K text d).summary = S text)
    ∧ (generate_metadata S K text d).keywords = (K text).map Prod.fst := by
  refine ⟨fun h => ⟨?_, ?_, ⟨text.drop 1024, (List.take_append_drop 1024 text).symm⟩⟩,
    fun h => ?_, rfl⟩
  · show S (if text.length > 1024 then text.take 1024 else text) = S (text.take 1024)
    rw [if_pos h]
  · rw [List.length_take]
    omega
  · show S (if text.length > 1024 then text.take 1024 else text) = S text
    rw [if_neg h]

/-- Witness for C2 at a concrete 2000-character text. -/
theorem truncate_then_summarize_instance :
    (generate_metadata (fun s => s) (fun _ => ([] : List (Str × Unit)))
      (List.replicate 2000 'a') "PDF".toList).summary
      = (List.replicate 2000 'a').take 1024 :=
  ((truncate_then_summarize_spec (fun s => s) (fun _ => ([] : List (Str × Unit)))
    (List.replicate 2000 'a') "PDF".toList).1
      (by rw [List.length_replicate]; omega)).1

/-- C3: in `summarize_long_text` with `chunk_size=1000`, `max_chunks=5`, the
chunks are contiguous non-overlapping pieces of the input starting at offset
0 (their concatenation in order is the input), every chunk is non-empty of
size at most 1000, every chunk except possibly the last has size exactly
1000, the summarized part is exactly the first 5000 characters of the input,
and the result joins the per-chunk summaries with one space in chunk order. -/
theorem summarize_long_text_spec (S : Str → Str) (text : Str) :
    ((pyChunks 1000 text).flatten = text)
    ∧ (∀ ch ∈ pyChunks 1000 text, ch ≠ [] ∧ ch.length ≤ 1000)
    ∧ (∀ ch ∈ (pyChunks 1000 text).dropLast, ch.length = 1000)
    ∧ (((pyChunks 1000 text).take 5).flatten = text.take 5000)
    ∧ ((((pyChunks 1000 text).take 5).flatten).length ≤ 5000)
    ∧ (summarize_long_text S text 1000 5
        = List.intercalate [' '] (((pyChunks 1000 text).take 5).map S)) := by
  have h1000 : (1 : Nat) ≤ 1000 := by omega
  refine ⟨pyChunks_flatten 1000 h1000 text, pyChunks_mem 1000 h1000 text,
    pyChunks_dropLast 1000 h1000 text, ?_, ?_, rfl⟩
  · exact pyChunks_take_flatten 1000 h1000 text 5
  · rw [pyChunks_take_flatten 1000 h1000 text 5, List.length_take]
    omega

/-- Witness for C3: a two-character text forms one chunk, which is non-empty
and within the size bound. -/
theorem summarize_long_text_instance :
    "ab".toList ≠ [] ∧ ("ab".toList).length ≤ 1000 :=
  (summarize_long_text_spec (fun s => s) "ab".toList).2.1 "ab".toList (by decide)

/-- C4 counterexample: with a summarizer returning a period-free summary, the
record's title is NOT the empty string, refuting the claim that a period-free
summary yields an empty title (the code's `split('.')[0]` returns the whole
summary instead). -/
theorem title_empty_on_no_period_refuted :
    ('.' ∉ (generate_metadata (fun _ => "abc".toList)
        (fun _ => ([] : List (Str × Unit))) "x".toList "T".toList).summary)
    ∧ (generate_metadata (fun _ => "abc".toList)
        (fun _ => ([] : List (Str × Unit))) "x".toList "T".toList).title ≠ [] := by
  decide

/-- C4 amended: the title is the part of the summary before its first period
(it contains no period and the summary extends it with a period when the
summary has one); when the summary contains no period the title is the ENTIRE
summary, not the empty string. -/
theorem title_from_summary_amended {σ : Type} (S : Str → Str)
    (K : Str → List (Str × σ)) (text d : Str) :
    ('.' ∉ (generate_metadata S K text d).title)
    ∧ ('.' ∈ (generate_metadata S K text d).summary →
        ∃ rest, (generate_metadata S K text d).summary
          = (generate_metadata S K text d).title ++ '.' :: rest)
    ∧ ('.' ∉ (generate_metadata S K text d).summary →
        (generate_metadata S K text d).title = (generate_metadata S K text d).summary) :=
  title_of_summary_spec (S (if text.length > 1024 then text.take 1024 else text))

/-- Witness for the amended C4 at a summary containing a period. -/
theorem title_from_summary_amended_instance :
    ∃ rest, (generate_metadata (fun _ => "Good day. Bye".toList)
        (fun _ => ([] : List (Str × Unit))) "z".toList "D".toList).summary
      = (generate_metadata (fun _ => "Good day. Bye".toList)
          (fun _ => ([] : List (Str × Unit))) "z".toList "D".toList).title
        ++ '.' :: rest :=
  (title_from_summary_amended (fun _ => "Good day. Bye".toList)
    (fun _ => ([] : List (Str × Unit))) "z".toList "D".toList).2.1 (by decide)

/-- C5: in both `generate_metadata` variants, the title is the prefix of the
summary before the first period (no period occurs in the title, and when the
summary has a period it is the title extended by a period and a remainder);
when the summary has no period, the title equals the entire summary. -/
theorem title_before_first_period_spec {σ : Type} (S : Str → Str)
    (K : Str → List (Str × σ)) (text d : Str) :
    (('.' ∉ (generate_metadata S K text d).title)
      ∧ ('.' ∈ (generate_metadata S K text d).summary →
          ∃ rest, (generate_metadata S K text d).summary
            = (generate_metadata S K text d).title ++ '.' :: rest)
      ∧ ('.' ∉ (generate_metadata S K text d).summary →
          (generate_metadata S K text d).title = (generate_metadata S K text d).summary))
    ∧ (('.' ∉ (ui_generate_metadata S K text d).title)
      ∧ ('.' ∈ (ui_generate_metadata S K text d).summary →
          ∃ rest, (ui_generate_metadata S K text d).summary
            = (ui_generate_metadata S K text d).title ++ '.' :: rest)
      ∧ ('.' ∉ (ui_generate_metadata S K text d).summary →
          (ui_generate_metadata S K text d).title
            = (ui_generate_metadata S K text d).summary)) :=
  ⟨title_of_summary_spec (S (if text.length > 1024 then text.take 1024 else text)),
   title_of_summary_spec (summarize_long_text S text 1000 5)⟩

/-- Witness for C5 at a period-free summary: the title is the whole summary. -/
theorem title_before_first_period_instance :
    (generate_metadata (fun _ => "Hi there".toList)
        (fun _ => ([] : List (Str × Unit))) "y".toList "X".toList).title
      = (generate_metadata (fun _ => "Hi there".toList)
          (fun _ => ([] : List (Str × Unit))) "y".toList "X".toList).summary :=
  (title_before_first_period_spec (fun _ => "Hi there".toList)
    (fun _ => ([] : List (Str × Unit))) "y".toList "X".toList).1.2.2 (by decide)

/-- C6: in both variants, `word_count` is the number of whitespace-delimited
tokens of the full extracted text, and does not depend on the summarizer, the
keyword model, the document type, or the truncation/chunking policy. -/
theorem word_count_full_text_spec {σ τ : Type} (S St : Str → Str)
    (K : Str → List (Str × σ)) (Kt : Str → List (Str × τ)) (text d dt : Str) :
    (generate_metadata S K text d).word_count = countTokens text
    ∧ (ui_generate_metadata S K text d).word_count = countTokens text
    ∧ (generate_metadata S K text d).word_count
        = (ui_generate_metadata St Kt text dt).word_count :=
  ⟨pySplitWs_length_eq text, pySplitWs_length_eq text, rfl⟩

/-- C10: the `doc_type` argument flows verbatim and unvalidated into the
`document_type` field and influences nothing else: in both variants, records
generated from the same text with different `doc_type` strings agree on
title, summary, keywords and word count. -/
theorem doc_type_noninterference_spec {σ : Type} (S : Str → Str)
    (K : Str → List (Str × σ)) (text d d' : Str) :
    ((generate_metadata S K text d).document_type = d
      ∧ (generate_metadata S K text d).title = (generate_metadata S K text d').title
      ∧ (generate_metadata S K text d).summary = (generate_metadata S K text d').summary
      ∧ (generate_metadata S K text d).keywords = (generate_metadata S K text d').keywords
      ∧ (generate_metadata S K text d).word_count
          = (generate_metadata S K text d').word_count)
    ∧ ((ui_generate_metadata S K text d).document_type = d
      ∧ (ui_generate_metadata S K text d).title = (ui_generate_metadata S K text d').title
      ∧ (ui_generate_metadata S K text d).summary
          = (ui_generate_metadata S K text d').summary
      ∧ (ui_generate_metadata S K text d).keywords
          = (ui_generate_metadata S K text d').keywords
      ∧ (ui_generate_metadata S K text d).word_count
          = (ui_generate_metadata S K text d').word_count) :=
  ⟨⟨rfl, rfl, rfl, rfl, rfl⟩, ⟨rfl, rfl, rfl, rfl, rfl⟩⟩

/-- C1: for a path with (lower-cased) extension `.pdf`, empty direct text
extraction makes `process_file` return the OCR text with type `Scanned PDF`;
non-empty direct extraction returns it with type `PDF`, and the result is
then independent of the OCR service (OCR is never invoked: `s2` may differ
from `s1` arbitrarily in `ocrPages`).  Conversely, `Scanned PDF` is reported
only when the extension is `.pdf` and direct extraction was empty. -/
theorem pdf_ocr_fallback_spec (s1 s2 : Services) (path : Str)
    (hp : s1.pdfPages = s2.pdfPages) (_hd : s1.docxParas = s2.docxParas)
    (_ht : s1.txtContent = s2.txtContent) :
    (pathExtLower path = ".pdf".toList →
      (extract_text_from_pdf s1 path = [] →
        process_file s1 path = (extract_text_via_ocr s1 path, "Scanned PDF".toList))
      ∧ (extract_text_from_pdf s1 path ≠ [] →
        process_file s1 path = (extract_text_from_pdf s1 path, "PDF".toList)
        ∧ process_file s1 path = process_file s2 path))
    ∧ ((process_file s1 path).2 = "Scanned PDF".toList →
      pathExtLower path = ".pdf".toList ∧ extract_text_from_pdf s1 path = []) := by
  have hpdf : extract_text_from_pdf s1 path = extract_text_from_pdf s2 path := by
    unfold extract_text_from_pdf
    rw [hp]
  constructor
  · intro hext
    constructor
    · intro hempty
      simp [process_file, hext, hempty]
    · intro hne
      have h2ne : extract_text_from_pdf s2 path ≠ [] := hpdf ▸ hne
      constructor
      · simp [process_file, hext, hne]
      · simp [process_file, hext, hne, h2ne, hpdf]
  · intro hscan
    simp only [process_file] at hscan
    by_cases hext : pathExtLower path = ".pdf".toList
    · rw [if_pos hext] at hscan
      by_cases hempty : extract_text_from_pdf s1 path = []
      · exact ⟨hext, hempty⟩
      · rw [if_neg hempty] at hscan
        have hcontra : ("PDF".toList : Str) = "Scanned PDF".toList := hscan
        exact absurd hcontra (by decide)
    · rw [if_neg hext] at hscan
      by_cases hdx : pathExtLower path = ".docx".toList
      · rw [if_pos hdx] at hscan
        have hcontra : ("DOCX".toList : Str) = "Scanned PDF".toList := hscan
        exact absurd hcontra (by decide)
      · rw [if_neg hdx] at hscan
        by_cases htx : pathExtLower path = ".txt".toList
        · rw [if_pos htx] at hscan
          have hcontra : ("TXT".toList : Str) = "Scanned PDF".toList := hscan
          exact absurd hcontra (by decide)
        · rw [if_neg htx] at hscan
          have hcontra : ("Unknown".toList : Str) = "Scanned PDF".toList := hscan
          exact absurd hcontra (by decide)

/-- Witness for C1: a PDF whose only page text is a single blank falls back
to OCR and is reported as a scanned PDF. -/
theorem pdf_ocr_fallback_instance :
    process_file svcScan "sample.pdf".toList
      = (extract_text_via_ocr svcScan "sample.pdf".toList, "Scanned PDF".toList) :=
  ((pdf_ocr_fallback_spec svcScan svcScan "sample.pdf".toList rfl rfl rfl).1
    (by decide)).1 (by decide)

/-- C7: for a `.txt` path, `process_file` returns the raw file content
verbatim (no trimming) with document type `TXT`, whereas the PDF and DOCX
extraction results are stripped of leading and trailing whitespace. -/
theorem txt_verbatim_spec (srv : Services) (path p2 : Str)
    (h : pathExtLower path = ".txt".toList) :
    process_file srv path = (srv.txtContent path, "TXT".toList)
    ∧ strippedAtEnds (extract_text_from_pdf srv p2) = true
    ∧ strippedAtEnds (extract_text_from_docx srv p2) = true := by
  refine ⟨?_, pyStrip_stripped _, pyStrip_stripped _⟩
  have hne1 : pathExtLower path ≠ ".pdf".toList := by
    rw [h]
    decide
  have hne2 : pathExtLower path ≠ ".docx".toList := by
    rw [h]
    decide
  simp [process_file, hne1, hne2, h]

/-- Witness for C7: the `.txt` branch hands back content with leading and
trailing whitespace untouched. -/
theorem txt_verbatim_instance :
    process_file svcTxt "notes.txt".toList
      = ("  raw content \n".toList, "TXT".toList) :=
  (txt_verbatim_spec svcTxt "notes.txt".toList [] (by decide)).1

/-- C8 counterexample: when `fitz.open` raises on a corrupt `sample.pdf`, the
exception leaves the notebook entry point as the RAW library exception — no
stage-identifying `ExtractionFailed`-style value exists anywhere in the code,
nothing catches the error, and the host script is terminated by it. -/
theorem extraction_error_escapes_raw :
    run_notebookE (fun _ => true) svcCorruptPdf "sample.pdf".toList
      = Except.error (PyExn.mk "corrupt file".toList) := by
  rfl

/-- C8 amended: extraction and model failures do abort processing of the
document, but they propagate out of the entry point as the raw underlying
exception, unchanged and with no stage-identifying wrapper: a PDF-parse
failure surfaces as the library's own exception, and so does a summarizer
failure on a text document. -/
theorem raw_exception_propagation_spec {σ : Type} (srv : ServicesE σ)
    (path : Str) (exn : PyExn) :
    (pathExtLower path = ".pdf".toList →
      srv.pdfPages path = Except.error exn →
      run_notebookE (fun _ => true) srv path = Except.error exn)
    ∧ (pathExtLower path = ".txt".toList →
      ∀ t, srv.txtContent path = Except.ok t → t ≠ [] →
      srv.summarize (if t.length > 1024 then t.take 1024 else t) = Except.error exn →
      run_notebookE (fun _ => true) srv path = Except.error exn) := by
  constructor
  · intro hext herr
    simp [run_notebookE, process_fileE, extract_text_from_pdfE, hext, herr,
      Bind.bind, Except.bind]
  · intro hext t hok hne hsum
    have hne1 : pathExtLower path ≠ ".pdf".toList := by
      rw [hext]
      decide
    have hne2 : pathExtLower path ≠ ".docx".toList := by
      rw [hext]
      decide
    simp [run_notebookE, process_fileE, generate_metadataE, hext, hne1, hne2,
      hok, hne, hsum, Bind.bind, Except.bind, Pure.pure, Except.pure]

/-- Witness for the amended C8: a summarizer failure on a text document
escapes as the raw model exception. -/
theorem raw_exception_propagation_instance :
    run_notebookE (fun _ => true) svcModelDown "notes.txt".toList
      = Except.error (PyExn.mk "model unavailable".toList) :=
  (raw_exception_propagation_spec svcModelDown "notes.txt".toList
      (PyExn.mk "model unavailable".toList)).2 (by decide)
    "hello world".toList rfl (by decide) rfl

/-- C9: invoking the notebook entry point on a path that does not exist
produces only the file-not-found warning and no record, raises nothing
(`Except.ok`), and is observationally independent of every extraction and
model service — so no extraction or model call is attempted. -/
theorem missing_file_no_action_spec {σ : Type} (srv srv' : ServicesE σ)
    (fsx : Str → Bool) (path : Str) (h : fsx path = false) :
    run_notebookE fsx srv path
      = Except.ok ([NotebookEvent.fileNotFoundWarning], (none : Option Metadata))
    ∧ run_notebookE fsx srv path = run_notebookE fsx srv' path := by
  constructor
  · simp [run_notebookE, h, Pure.pure, Except.pure]
  · simp [run_notebookE, h]

/-- Witness for C9 on a concrete missing path. -/
theorem missing_file_no_action_instance :
    run_notebookE (fun _ => false) svcIdle "missing.txt".toList
      = Except.ok ([NotebookEvent.fileNotFoundWarning], (none : Option Metadata)) :=
  (missing_file_no_action_spec svcIdle svcIdle (fun _ => false)
    "missing.txt".toList rfl).1
